import Mathlib

/-!
Verification development for the custom-LLM protocol adapter
(`packages/core/src/custom_llm`): a bidirectional converter between a
Gemini-style content API and an OpenAI-style chat-completion API.

The definitions below are shallow embeddings of the TypeScript source:
* `converter.ts` — `ModelConverter.toOpenAIMessages`, `toGeminiResponse`,
  `processStreamChunk`, `flushToolCallMap`, `attachFunctionCalls`,
  `safeJsonParse`;
* `util.ts` — `isValidFunctionCall`, `isValidFunctionResponse`,
  `convertTypeValuesToLowerCase`, `extractToolFunctions`,
  `normalizeContents`;
* `index.ts` — `countTokens`.

JavaScript's built-in `JSON.parse` and `JSON.stringify` are external to the
repository; they are modelled as explicit function parameters
(`parse : String → Option Json`, where `none` models a thrown parse error,
and `stringify : Json → String`).  JS `Map` objects are modelled as
association lists with JS-`Map` update semantics.  Truthiness tests on
strings (`if (s)`) are modelled as non-emptiness.
-/

namespace CustomLLM

/-- A JSON value, as produced by `JSON.parse`.  Numbers are modelled as
integers; no claim depends on fractional numeric values inside parsed JSON. -/
inductive Json where
  | null : Json
  | bool (b : Bool) : Json
  | num (n : Int) : Json
  | str (s : String) : Json
  | arr (items : List Json) : Json
  | obj (fields : List (String × Json)) : Json

/-- `true` iff the value is a JSON string (models `typeof value === 'string'`). -/
def Json.isStr : Json → Bool
  | .str _ => true
  | _ => false

/-- Models JS `String.prototype.toLowerCase` on ASCII data: maps each
character `A`-`Z` to its lower-case form.  (Schema `type` values are ASCII;
locale-specific Unicode lowering is irrelevant to the claims.) -/
def lowerChar (c : Char) : Char :=
  if 65 ≤ c.toNat ∧ c.toNat ≤ 90 then Char.ofNat (c.toNat + 32) else c

/-- ASCII lower-casing of a string. -/
def jsToLowerCase (s : String) : String :=
  ⟨s.data.map lowerChar⟩

/-- Lower-cases a JSON string value, identity otherwise. -/
def Json.lowerStr : Json → Json
  | .str s => .str (jsToLowerCase s)
  | j => j

/-- The entries of a JSON object (empty for non-objects). -/
def Json.objFields : Json → List (String × Json)
  | .obj fields => fields
  | _ => []

/-- Models the `key === 'minLength' || key === 'minItems'` skip in
`convertTypeValuesToLowerCase` (`true` = the entry is kept). -/
def keepField (kv : String × Json) : Bool :=
  !(kv.1 == "minLength" || kv.1 == "minItems")

/-- Embeds `convertTypeValuesToLowerCase` from `util.ts`: recursively map over
arrays; over object entries drop `minLength`/`minItems` keys, lower-case
string values of `type` keys, and recurse into every other value; return
non-objects (numbers, strings, booleans, null) unchanged.  The source's
single loop (skip-or-transform per entry) is expressed as filter-then-map;
the skip condition and the per-entry transform are independent, so the two
forms build the same entry list. -/
def convertTypeValuesToLowerCase : Json → Json
  | .arr items => .arr (items.attach.map (fun x => convertTypeValuesToLowerCase x.val))
  | .obj fields =>
      .obj (((fields.filter keepField).attach).map (fun x =>
        if x.val.1 == "type" && x.val.2.isStr then (x.val.1, x.val.2.lowerStr)
        else (x.val.1, convertTypeValuesToLowerCase x.val.2)))
  | j => j
decreasing_by
  · have h := List.sizeOf_lt_of_mem x.2
    simp only [Json.arr.sizeOf_spec]
    omega
  · have h1 := List.sizeOf_lt_of_mem (List.mem_of_mem_filter x.2)
    have h2 : sizeOf x.val.2 < sizeOf x.val := by
      obtain ⟨⟨k, v⟩, hx⟩ := x
      simp only [Prod.mk.sizeOf_spec]
      omega
    simp only [Json.obj.sizeOf_spec]
    omega

/-- Unfolding lemma: `convertTypeValuesToLowerCase` maps itself over array items. -/
theorem convertTypeValuesToLowerCase_arr (items : List Json) :
    convertTypeValuesToLowerCase (.arr items) = .arr (items.map convertTypeValuesToLowerCase) := by
  rw [convertTypeValuesToLowerCase]
  rw [List.attach_map_val]

/-- Unfolding lemma: on objects, `convertTypeValuesToLowerCase` drops
`minLength`/`minItems` entries, lower-cases string-valued `type` entries and
recurses into all other values. -/
theorem convertTypeValuesToLowerCase_obj (fields : List (String × Json)) :
    convertTypeValuesToLowerCase (.obj fields) =
      .obj ((fields.filter keepField).map (fun kv =>
        if kv.1 == "type" && kv.2.isStr then (kv.1, kv.2.lowerStr)
        else (kv.1, convertTypeValuesToLowerCase kv.2))) := by
  rw [convertTypeValuesToLowerCase]
  rw [List.attach_map_val (fields.filter keepField) (fun kv => if kv.1 == "type" && kv.2.isStr then (kv.1, kv.2.lowerStr) else (kv.1, convertTypeValuesToLowerCase kv.2))]

/-- Unfolding lemma: non-array non-object JSON values are returned unchanged. -/
theorem convertTypeValuesToLowerCase_atom :
    convertTypeValuesToLowerCase .null = .null ∧
    (∀ b, convertTypeValuesToLowerCase (.bool b) = .bool b) ∧
    (∀ n, convertTypeValuesToLowerCase (.num n) = .num n) ∧
    (∀ s, convertTypeValuesToLowerCase (.str s) = .str s) := by
  refine ⟨?_, ?_, ?_, ?_⟩
  · rw [convertTypeValuesToLowerCase] <;> simp
  · intro b; rw [convertTypeValuesToLowerCase] <;> simp
  · intro n; rw [convertTypeValuesToLowerCase] <;> simp
  · intro s; rw [convertTypeValuesToLowerCase] <;> simp

/-- No `minLength`/`minItems` key occurs anywhere in the JSON tree. -/
inductive NoMinKeys : Json → Prop where
  | null : NoMinKeys .null
  | bool (b : Bool) : NoMinKeys (.bool b)
  | num (n : Int) : NoMinKeys (.num n)
  | str (s : String) : NoMinKeys (.str s)
  | arr (items : List Json) :
      (∀ j ∈ items, NoMinKeys j) → NoMinKeys (.arr items)
  | obj (fields : List (String × Json)) :
      (∀ kv ∈ fields, kv.1 ≠ "minLength") →
      (∀ kv ∈ fields, kv.1 ≠ "minItems") →
      (∀ kv ∈ fields, NoMinKeys kv.2) →
      NoMinKeys (.obj fields)

/-- After normalization, no `minLength`/`minItems` key remains at any depth. -/
theorem noMinKeys_convert : (j : Json) → NoMinKeys (convertTypeValuesToLowerCase j)
  | .null => by rw [convertTypeValuesToLowerCase_atom.1]; exact .null
  | .bool b => by rw [convertTypeValuesToLowerCase_atom.2.1]; exact .bool b
  | .num n => by rw [convertTypeValuesToLowerCase_atom.2.2.1]; exact .num n
  | .str s => by rw [convertTypeValuesToLowerCase_atom.2.2.2]; exact .str s
  | .arr items => by
      rw [convertTypeValuesToLowerCase_arr]
      refine .arr _ ?_
      intro j hj
      obtain ⟨x, hx, rfl⟩ := List.mem_map.mp hj
      exact noMinKeys_convert x
  | .obj fields => by
      rw [convertTypeValuesToLowerCase_obj]
      refine .obj _ ?_ ?_ ?_
      · intro kv hkv
        obtain ⟨x, hx, rfl⟩ := List.mem_map.mp hkv
        have hkeep : keepField x := List.of_mem_filter hx
        simp only [keepField, Bool.not_eq_true', Bool.or_eq_false_iff, beq_eq_false_iff_ne] at hkeep
        by_cases hc : (x.1 == "type" && x.2.isStr) = true <;> simp [hc, hkeep.1]
      · intro kv hkv
        obtain ⟨x, hx, rfl⟩ := List.mem_map.mp hkv
        have hkeep : keepField x := List.of_mem_filter hx
        simp only [keepField, Bool.not_eq_true', Bool.or_eq_false_iff, beq_eq_false_iff_ne] at hkeep
        by_cases hc : (x.1 == "type" && x.2.isStr) = true <;> simp [hc, hkeep.2]
      · intro kv hkv
        obtain ⟨x, hx, rfl⟩ := List.mem_map.mp hkv
        have hmem : x ∈ fields := List.mem_of_mem_filter hx
        by_cases hc : (x.1 == "type" && x.2.isStr) = true
        · simp only [hc, if_true]
          have : ∃ s, x.2 = .str s := by
            rcases hx2 : x.2 <;> simp [hx2, Json.isStr] at hc ⊢
          obtain ⟨s, hs⟩ := this
          simp [hs, Json.lowerStr]
          exact .str _
        · simp only [hc, if_false]
          exact noMinKeys_convert x.2
decreasing_by
  · have h := List.sizeOf_lt_of_mem hx
    simp only [Json.arr.sizeOf_spec]
    omega
  · have h1 := List.sizeOf_lt_of_mem hmem
    have h2 : sizeOf x.2 < sizeOf x := by
      obtain ⟨k, v⟩ := x
      simp only [Prod.mk.sizeOf_spec]
      omega
    simp only [Json.obj.sizeOf_spec]
    omega

/-! ## `safeJsonParse` and the Gemini-response model (`converter.ts`) -/

/-- Embeds `safeJsonParse`: `JSON.parse` inside `try`/`catch`, substituting an
empty object on any parse error.  `parse raw = none` models a thrown error. -/
def safeJsonParse (parse : String → Option Json) (raw : String) : Json :=
  match parse raw with
  | some v => v
  | none => Json.obj []

/-- A reconstructed Gemini function call (`FunctionCall` of `@google/genai`). -/
structure FunctionCall where
  id : Option String
  name : String
  args : Json

/-- A part of a reconstructed Gemini response candidate. -/
inductive RPart where
  | text (s : String)
  | functionCall (fc : FunctionCall)

/-- The single candidate's content (`{ role?, parts }`). -/
structure Candidate where
  role : Option String
  parts : List RPart

/-- Usage metadata copied from the completion. -/
structure UsageMetadata where
  promptTokenCount : Nat
  candidatesTokenCount : Nat
  totalTokenCount : Nat
deriving DecidableEq

/-- A reconstructed `GenerateContentResponse`.  `candidates` is `none` when
the source never assigns `res.candidates`; `functionCalls` is `none` unless
`attachFunctionCalls` defines the own-property. -/
structure GemResponse where
  candidates : Option Candidate := none
  functionCalls : Option (List FunctionCall) := none
  usageMetadata : Option UsageMetadata := none

/-- Embeds `attachFunctionCalls`: defines the `functionCalls` property only
when the list is non-empty at the moment of the call. -/
def attachFunctionCalls (res : GemResponse) (functionCalls : List FunctionCall) : GemResponse :=
  if functionCalls.isEmpty then res else { res with functionCalls := some functionCalls }

/-- JS truthiness of an optional string: present and non-empty. -/
def truthy : Option String → Bool
  | some s => s ≠ ""
  | none => false

/-! ## Non-streamed completion → Gemini response (`toGeminiResponse`) -/

/-- An element of `choice.message.tool_calls` after the `OpenAIToolCall` cast:
the `function` and `custom` shapes, or a call with an unrecognized type tag
(dropped by the conversion loop). -/
inductive OAToolCall where
  | function (id : Option String) (name : String) (arguments : String)
  | custom (id : Option String) (name : String) (input : String)
  | otherType (id : Option String) (type : String)

/-- `choice.message` of a non-streamed completion. -/
structure CompletionMessage where
  content : Option String := none
  tool_calls : Option (List OAToolCall) := none

/-- One choice of a non-streamed completion. -/
structure CompletionChoice where
  message : CompletionMessage

/-- `response.usage` of a completion. -/
structure CompletionUsage where
  prompt_tokens : Option Nat := none
  completion_tokens : Option Nat := none
  total_tokens : Option Nat := none

/-- A non-streamed OpenAI chat completion. -/
structure Completion where
  choices : List CompletionChoice
  usage : Option CompletionUsage := none

/-- The conversion loop body of `toGeminiResponse`: `function`-typed calls are
converted with fail-soft argument parsing, `custom`-typed calls wrap their
input string, all other types are dropped. -/
def completionFunctionCalls (parse : String → Option Json) :
    List OAToolCall → List FunctionCall
  | [] => []
  | .function id name arguments :: rest =>
      { id := id, name := name, args := safeJsonParse parse arguments } ::
        completionFunctionCalls parse rest
  | .custom id name input :: rest =>
      { id := id, name := name, args := Json.obj [("input", Json.str input)] } ::
        completionFunctionCalls parse rest
  | .otherType _ _ :: rest => completionFunctionCalls parse rest

/-- Embeds `ModelConverter.toGeminiResponse`.  `none` models the TypeError the
source would throw when `response.choices` is empty (`choices[0].message`).
Note that the source calls `attachFunctionCalls(res, functionCalls)` while
`functionCalls` is still the empty array, so the `functionCalls` own-property
is never attached on this path. -/
def toGeminiResponse (parse : String → Option Json) (response : Completion) :
    Option GemResponse :=
  match response.choices.head? with
  | none => none
  | some choice =>
    let base : GemResponse :=
      if truthy choice.message.content then
        { candidates := some { role := some "model",
                               parts := [RPart.text (choice.message.content.getD "")] } }
      else
        match choice.message.tool_calls with
        | some toolCalls =>
            let functionCalls := completionFunctionCalls parse toolCalls
            { candidates := some { role := none,
                                   parts := functionCalls.map RPart.functionCall } }
        | none => {}
    some { base with usageMetadata := some {
      promptTokenCount := (response.usage.bind (fun u => u.prompt_tokens)).getD 0,
      candidatesTokenCount := (response.usage.bind (fun u => u.completion_tokens)).getD 0,
      totalTokenCount := (response.usage.bind (fun u => u.total_tokens)).getD 0 } }

/-! ## Streaming state (`ToolCallMap`, `processStreamChunk`, `flushToolCallMap`) -/

/-- An in-progress tool call accumulated across stream deltas
(`types.ts` `ToolCallMap` entry). -/
structure PendingToolCall where
  id : Option String
  name : String
  arguments : String
deriving DecidableEq

/-- The accumulator, a JS `Map<number, PendingToolCall>` modelled as an
association list in insertion order with distinct keys. -/
abbrev ToolCallMap := List (Nat × PendingToolCall)

/-- `Map.get`. -/
def mapGet (m : ToolCallMap) (k : Nat) : Option PendingToolCall :=
  match m with
  | [] => none
  | (k', v) :: rest => if k' = k then some v else mapGet rest k

/-- `Map.set`: updates the existing key in place (JS `Map` keeps insertion
order on update) or appends a new binding. -/
def mapSet (m : ToolCallMap) (k : Nat) (v : PendingToolCall) : ToolCallMap :=
  match m with
  | [] => [(k, v)]
  | (k', v') :: rest => if k' = k then (k, v) :: rest else (k', v') :: mapSet rest k v

/-- `delta.tool_calls[i].function` — a partial name/arguments fragment. -/
structure FnFragment where
  name : Option String := none
  arguments : Option String := none
deriving DecidableEq

/-- One element of `delta.tool_calls` (`OpenAIStreamToolCall`). -/
structure StreamToolCall where
  index : Nat
  id : Option String := none
  type : Option String := none
  function : Option FnFragment := none
deriving DecidableEq

/-- An element of an array-shaped `delta.content`: an object carrying `type`
and `text` fields (field value `none` models absent-or-not-a-string), or a
non-object element. -/
inductive ContentItem where
  | obj (type : Option String) (text : Option String)
  | notObj
deriving DecidableEq

/-- The loosely-typed `delta.content`: a string, an array, some other value,
or absent (`Option`). -/
inductive RawContent where
  | str (s : String)
  | arr (items : List ContentItem)
  | other
deriving DecidableEq

/-- `choices[0].delta` of a stream chunk. -/
structure StreamDelta where
  content : Option RawContent := none
  tool_calls : Option (List StreamToolCall) := none
deriving DecidableEq

/-- One choice of a stream chunk. -/
structure StreamChoice where
  delta : Option StreamDelta := none
  finish_reason : Option String := none
deriving DecidableEq

/-- A streaming chunk. -/
structure Chunk where
  choices : List StreamChoice
deriving DecidableEq

/-- The two text branches of `processStreamChunk`: a non-empty string content
is emitted directly; otherwise, for a non-empty array content whose first
element is an object with `type === 'text'` and a non-empty string `text`,
that text is emitted; anything else falls through to tool-call handling. -/
def extractTextDelta : Option RawContent → Option String
  | some (.str s) => if s.length > 0 then some s else none
  | some (.arr items) =>
      match items.head? with
      | some (.obj (some t) (some txt)) =>
          if t = "text" ∧ txt.length > 0 then some txt else none
      | _ => none
  | _ => none

/-- The `call.type && call.type !== 'function'` skip test. -/
def skipCall : Option String → Bool
  | some t => t ≠ "" && t ≠ "function"
  | none => false

/-- The per-fragment accumulator update of `processStreamChunk`: look up or
create the pending call at the fragment's index, then merge id, name and
arguments (append) when each is present and truthy. -/
def applyToolCallDelta (m : ToolCallMap) (call : StreamToolCall) : ToolCallMap :=
  if skipCall call.type then m
  else
    let current := (mapGet m call.index).getD { id := none, name := "", arguments := "" }
    let current := match call.id with
      | some i => if i ≠ "" then { current with id := some i } else current
      | none => current
    let current := match call.function.bind (fun f => f.name) with
      | some n => if n ≠ "" then { current with name := n } else current
      | none => current
    let current := match call.function.bind (fun f => f.arguments) with
      | some a => if a ≠ "" then { current with arguments := current.arguments ++ a } else current
      | none => current
    mapSet m call.index current

/-- The `for (const call of toolCalls)` accumulation loop.  (The source's
`toolCalls && toolCalls.length > 0` guard only skips an empty loop, so absent
tool
 calls are modelled as folding over `[]`.) -/
def accumulateToolCalls (m : ToolCallMap) (calls : List StreamToolCall) : ToolCallMap :=
  calls.foldl applyToolCallDelta m

/-- The ascending-index comparison used by
`Array.from(toolCallMap.entries()).sort(([l], [r]) => l - r)`. -/
def entryLe (a b : Nat × PendingToolCall) : Prop := a.1 ≤ b.1

instance : DecidableRel entryLe := fun a b => Nat.decLe a.1 b.1

instance : IsTotal (Nat × PendingToolCall) entryLe := ⟨fun a b => Nat.le_total a.1 b.1⟩

instance : IsTrans (Nat × PendingToolCall) entryLe := ⟨fun _ _ _ hab hbc => Nat.le_trans hab hbc⟩

/-- The accumulator's entries sorted by ascending call index. -/
def sortEntries (m : ToolCallMap) : ToolCallMap := List.insertionSort entryLe m

/-- Whether a flush keeps the entry: `if (!data.name) continue`. -/
def namedEntry (e : Nat × PendingToolCall) : Bool := e.2.name ≠ ""

/-- Builds the emitted call from a kept entry, with fail-soft argument parsing. -/
def buildFunctionCall (parse : String → Option Json) (data : PendingToolCall) : FunctionCall :=
  { id := data.id, name := data.name, args := safeJsonParse parse data.arguments }

/-- Embeds `flushToolCallMap`: sort entries by ascending index, drop entries
whose name never arrived, build the remaining calls fail-softly, clear the
map unconditionally, and return the response (attaching the `functionCalls`
property only when at least one call was kept).  The returned pair is
(response, cleared map). -/
def flushToolCallMap (parse : String → Option Json) (m : ToolCallMap) :
    GemResponse × ToolCallMap :=
  let functionCalls := ((sortEntries m).filter namedEntry).map
    (fun e => buildFunctionCall parse e.2)
  let response : GemResponse :=
    { candidates := some { role := some "model",
                           parts := functionCalls.map RPart.functionCall } }
  (attachFunctionCalls response functionCalls, [])

/-- Embeds `ModelConverter.processStreamChunk` as a pure step function:
given the chunk and the accumulator, returns the optional emitted response
and the updated accumulator. -/
def processStreamChunk (parse : String → Option Json) (chunk : Chunk)
    (toolCallMap : ToolCallMap) : Option GemResponse × ToolCallMap :=
  match chunk.choices.head? with
  | none => (none, toolCallMap)
  | some choice =>
    match choice.delta with
    | none => (none, toolCallMap)
    | some delta =>
      match extractTextDelta delta.content with
      | some text =>
          (some { candidates := some { role := some "model",
                                       parts := [RPart.text text] } }, toolCallMap)
      | none =>
        let m1 := accumulateToolCalls toolCallMap (delta.tool_calls.getD [])
        if choice.finish_reason = some "tool_calls" ∧ m1 ≠ [] then
          let flushed := flushToolCallMap parse m1
          (some flushed.1, flushed.2)
        else
          (none, m1)

/-- The driver loop of `generateContentStream`: advance the step function
once per chunk in order, threading the accumulator and yielding every
emitted response. -/
def runChunks (parse : String → Option Json) :
    List Chunk → ToolCallMap → List GemResponse × ToolCallMap
  | [], m => ([], m)
  | chunk :: rest, m =>
      let step := processStreamChunk parse chunk m
      let next := runChunks parse rest step.2
      (step.1.toList ++ next.1, next.2)

/-! ## Request conversion (`toOpenAIMessages` and the `util.ts` guards) -/

/-- A loose JS value probed by the type guards: a string, or some present
non-string value. -/
inductive JsVal where
  | str (s : String)
  | notStr
deriving DecidableEq

/-- Extracts the string from a guard-checked field (`""` default is
unreachable once the guard has accepted the part). -/
def optJsValStr : Option JsVal → String
  | some (.str s) => s
  | _ => ""

/-- The loose `functionCall` field of a part.  A field value of `none`
models an absent or `undefined` field; `args : Option Json` models
`args !== undefined`. -/
structure RawFunctionCall where
  name : Option JsVal := none
  args : Option Json := none
  id : Option JsVal := none

/-- The `response` object of a `functionResponse` part. -/
structure RawResponseBody where
  output : Option String := none
  error : Option String := none

/-- The loose `functionResponse` field of a part. -/
structure RawFunctionResponse where
  id : Option JsVal := none
  name : Option JsVal := none
  response : Option RawResponseBody := none

/-- `inlineData` of a part (used by `countTokens`). -/
structure InlineData where
  data : Option String := none

/-- A loose Gemini `Part` object: any subset of the probed fields may be
present.  `text = none` models an absent (or non-string) `text` field;
`functionCall`/`functionResponse` of `none` model an absent or non-object
field. -/
structure RawPart where
  text : Option String := none
  functionCall : Option RawFunctionCall := none
  functionResponse : Option RawFunctionResponse := none
  inlineData : Option InlineData := none

/-- A runtime element of a `parts` array: an object, or (defensively, as in
`countTokens`) a bare string. -/
inductive PartU where
  | str (s : String)
  | obj (p : RawPart)

/-- Embeds `isValidFunctionCall` from `util.ts`: the part must be an object
whose `functionCall` is a truthy object with a string `name`, a defined
`args`, and a string `id`. -/
def isValidFunctionCall (part : PartU) : Bool :=
  match part with
  | .str _ => false
  | .obj p =>
    match p.functionCall with
    | none => false
    | some fc =>
      (match fc.name with | some (.str _) => true | _ => false) &&
      fc.args.isSome &&
      (match fc.id with | some (.str _) => true | _ => false)

/-- Embeds `isValidFunctionResponse` from `util.ts`: the part must be an
object whose `functionResponse` is a truthy object with string `id` and
`name` and a truthy object `response`. -/
def isValidFunctionResponse (part : PartU) : Bool :=
  match part with
  | .str _ => false
  | .obj p =>
    match p.functionResponse with
    | none => false
    | some fr =>
      (match fr.id with | some (.str _) => true | _ => false) &&
      (match fr.name with | some (.str _) => true | _ => false) &&
      fr.response.isSome

/-- The `'text' in part` filter of `processTextParts` (with the
`typeof part === 'object'` prefix). -/
def hasTextField : PartU → Bool
  | .obj p => p.text.isSome
  | .str _ => false

/-- The `text` field of a part (used after `hasTextField`). -/
def getTextField : PartU → String
  | .obj p => p.text.getD ""
  | .str _ => ""

/-- The `functionCall` field of a guard-accepted part. -/
def getFunctionCall : PartU → RawFunctionCall
  | .obj p => p.functionCall.getD {}
  | .str _ => {}

/-- The `functionResponse` field of a guard-accepted part. -/
def getFunctionResponse : PartU → RawFunctionResponse
  | .obj p => p.functionResponse.getD {}
  | .str _ => {}

/-- An entry of a flat message's `tool_calls` array. -/
structure ToolCallSpec where
  id : String
  name : String
  arguments : String

/-- A flat OpenAI chat message.  `content = none` models `null` content. -/
structure FlatMessage where
  role : String
  content : Option String
  tool_call_id : Option String := none
  tool_calls : Option (List ToolCallSpec) := none

/-- Embeds `processTextParts`: concatenate the `text` fields of all parts
having one with newline separators and emit a single message of the turn's
role — but only for the roles `user`, `system` and `assistant`; other roles
(including an absent role) emit nothing.  Emits nothing when no part has a
`text` field. -/
def processTextParts (parts : List PartU) (role : Option String) : List FlatMessage :=
  let textParts := parts.filter hasTextField
  if textParts.isEmpty then []
  else
    let text := String.intercalate "\n" (textParts.map getTextField)
    if role = some "user" then [{ role := "user", content := some text }]
    else if role = some "system" then [{ role := "system", content := some text }]
    else if role = some "assistant" then [{ role := "assistant", content := some text }]
    else []

/-- The `content` of a tool message: `"Error: " + error` when `error` is
truthy, else the output string (empty when absent). -/
def frContent (fr : RawFunctionResponse) : String :=
  let body := fr.response.getD {}
  match body.error with
  | some e => if e ≠ "" then "Error: " ++ e else body.output.getD ""
  | none => body.output.getD ""

/-- Embeds `processFunctionResponseParts`: each guard-accepted
`functionResponse` part becomes its own `tool` message carrying the
response id and content. -/
def processFunctionResponseParts (parts : List PartU) : List FlatMessage :=
  (parts.filter isValidFunctionResponse).map (fun part =>
    let fr := getFunctionResponse part
    { role := "tool", content := some (frContent fr),
      tool_call_id := some (optJsValStr fr.id) })

/-- Embeds `processFunctionCallParts`: all guard-accepted `functionCall`
parts of the turn collapse into one assistant message with `null` content
and a `tool_calls` array (arguments serialized by `stringify`); nothing is
emitted when no part passes the guard. -/
def processFunctionCallParts (stringify : Json → String) (parts : List PartU) :
    List FlatMessage :=
  let fcParts := parts.filter isValidFunctionCall
  if fcParts.isEmpty then []
  else
    [{ role := "assistant", content := none,
       tool_calls := some (fcParts.map (fun part =>
         let fc := getFunctionCall part
         { id := optJsValStr fc.id, name := optJsValStr fc.name,
           arguments := stringify (fc.args.getD Json.null) })) }]

/-- A conversation turn (`Content` of `@google/genai`). -/
structure Content where
  role : Option String := none
  parts : Option (List PartU) := none

/-- An element of an array-shaped `contents`: a bare string, an object with a
`parts` field (a turn), or any other part-like value. -/
inductive ContentListItem where
  | str (s : String)
  | content (c : Content)
  | part (p : PartU)

/-- The `ContentListUnion` input: a bare string, a turn, a part-like object,
or a list of the above.  The `content`/`part` split encodes the source's
`'parts' in item` probe. -/
inductive ContentListUnion where
  | str (s : String)
  | content (c : Content)
  | part (p : PartU)
  | list (items : List ContentListItem)

/-- Embeds `normalizeContents` from `util.ts`. -/
def normalizeContents : ContentListUnion → List Content
  | .list items => items.map (fun item =>
      match item with
      | .str s => { role := some "user", parts := some [PartU.obj { text := some s }] }
      | .content c => c
      | .part p => { role := some "user", parts := some [p] })
  | .str s => [{ role := some "user", parts := some [PartU.obj { text := some s }] }]
  | .content c => [c]
  | .part p => [{ role := some "user", parts := some [p] }]

/-- The per-turn body of the `toOpenAIMessages` loop: map role `model` to
`assistant`, then append the three part groups in the fixed order
text → function responses → function calls. -/
def contentMessages (stringify : Json → String) (content : Content) : List FlatMessage :=
  let role := if content.role = some "model" then some "assistant" else content.role
  let parts := content.parts.getD []
  processTextParts parts role ++ processFunctionResponseParts parts ++
    processFunctionCallParts stringify parts

/-- A Gemini function declaration. -/
structure FunctionDeclaration where
  name : Option String := none
  description : Option String := none
  parameters : Option Json := none

/-- A Gemini tool declaration list entry: either an object with a
`functionDeclarations` field (possibly `undefined`), or some other tool
shape (skipped by `'functionDeclarations' in tool`). -/
inductive Tool where
  | functionDeclarations (decls : Option (List FunctionDeclaration))
  | otherTool

/-- The generation config consumed by the converter (`systemInstruction` of
`none` models an absent or non-string instruction). -/
structure GenerateRequestConfig where
  systemInstruction : Option String := none
  tools : Option (List Tool) := none

/-- A generate request (`GenerateContentParameters`). -/
structure GenerateRequest where
  contents : ContentListUnion
  config : Option GenerateRequestConfig := none

/-- Embeds `ModelConverter.toOpenAIMessages`: an optional leading system
message (only for a non-empty string instruction), then the per-turn
messages of each normalized turn in order. -/
def toOpenAIMessages (stringify : Json → String) (request : GenerateRequest) :
    List FlatMessage :=
  let systemInstruction := request.config.bind (fun c => c.systemInstruction)
  let sys : List FlatMessage :=
    match systemInstruction with
    | some s => if s.length > 0 then [{ role := "system", content := some s }] else []
    | none => []
  sys ++ (normalizeContents request.contents).flatMap (contentMessages stringify)

/-- An OpenAI tool declaration produced by `extractToolFunctions`
(each entry is `{type:'function', function:{name, description, parameters}}`). -/
structure OpenAIToolDecl where
  name : String
  description : String
  parameters : Option Json

/-- Converts a single Gemini function declaration to the OpenAI tool shape
(the loop body of `extractToolFunctions`). -/
def convertDeclaration (func : FunctionDeclaration) : OpenAIToolDecl :=
  { name := func.name.getD "", description := func.description.getD "",
    parameters := func.parameters.map convertTypeValuesToLowerCase }

/-- Embeds `extractToolFunctions` from `util.ts`: `undefined` when the config
or its `tools` is absent; otherwise flatten every `functionDeclarations`
list, normalizing each declaration's parameter schema; return the list only
when non-empty, else `undefined`. -/
def extractToolFunctions (requestConfig : Option GenerateRequestConfig) :
    Option (List OpenAIToolDecl) :=
  match requestConfig.bind (fun c => c.tools) with
  | none => none
  | some tools =>
    let result := tools.foldl
      (fun acc tool =>
        match tool with
        | .functionDeclarations decls => acc ++ (decls.getD []).map convertDeclaration
        | .otherTool => acc)
      []
    if result.length > 0 then some result else none

/-! ## `countTokens` (`index.ts`)

The source counts regex matches over the joined text and combines them with
floating-point weights.  The regexes are embedded as explicit left-to-right
scans (a match count for each class), and the weighted sum
`englishWords*1.2 + chineseChars*1 + numbers*0.8 + punctuations*0.5 + spaces`
is computed exactly in tenths; every reachable value is a multiple of 0.1,
far outside double rounding error, so the exact model agrees with the JS
float computation on the ceil. -/

/-- `[a-zA-Z]`. -/
def isAsciiLetter (c : Char) : Bool :=
  (65 ≤ c.toNat && c.toNat ≤ 90) || (97 ≤ c.toNat && c.toNat ≤ 122)

/-- `[0-9]` (JS `\d`). -/
def isDigitCh (c : Char) : Bool :=
  48 ≤ c.toNat && c.toNat ≤ 57

/-- JS `\w` (word character): letters, digits, underscore. -/
def isWordChar (c : Char) : Bool :=
  isAsciiLetter c || isDigitCh c || c.toNat = 95

/-- The CJK range `[一-鿿]`. -/
def isChineseChar (c : Char) : Bool :=
  0x4e00 ≤ c.toNat && c.toNat ≤ 0x9fff

/-- The punctuation class of the source's regex. -/
def isPunctChar (c : Char) : Bool :=
  ".,!?;:\x22\x27()\x7b\x7d[]<>@#$%^&*-_+=~`|\\/".toList.contains c

/-- JS `\s` restricted to the ASCII whitespace characters (the claims only
exercise plain spaces). -/
def isSpaceChar (c : Char) : Bool :=
  c.toNat = 32 || c.toNat = 9 || c.toNat = 10 || c.toNat = 13 || c.toNat = 11 || c.toNat = 12

/-- One step of the scanner for `/[a-zA-Z]+[']?[a-zA-Z]*/g` match counting.
State 0: outside a match; 1: inside the leading letter run; 2: past the
optional apostrophe.  The count increments when a match starts. -/
def wordStep (st : Nat) (c : Char) : Nat × Nat :=
  if isAsciiLetter c then
    if st = 0 then (1, 1) else (st, 0)
  else if c.toNat = 39 then
    if st = 1 then (2, 0) else (0, 0)
  else (0, 0)

/-- Number of `/[a-zA-Z]+[']?[a-zA-Z]*/g` matches. -/
def englishWordCount (s : String) : Nat :=
  (s.data.foldl (fun acc c =>
    let step := wordStep acc.1 c
    (step.1, acc.2 + step.2)) ((0, 0) : Nat × Nat)).2

/-- Number of `/[一-鿿]/g` matches. -/
def chineseCharCount (s : String) : Nat :=
  (s.data.filter isChineseChar).length

/-- One step of the scanner for `/\b\d+\b/g` match counting.  State 0: at a
word boundary for a following digit run; 1: inside a word after a non-digit
word character (a digit run started here is not boundary-started); 2: inside
a boundary-started digit run; 3: inside a non-boundary digit run.  A
boundary-started run is counted when it ends before a non-word character
(or at the end of the string). -/
def numStep (st : Nat) (c : Char) : Nat × Nat :=
  if isDigitCh c then
    if st = 0 then (2, 0)
    else if st = 2 then (2, 0)
    else (3, 0)
  else if isWordChar c then (1, 0)
  else (0, if st = 2 then 1 else 0)

/-- Number of `/\b\d+\b/g` matches. -/
def numberCount (s : String) : Nat :=
  let scan := s.data.foldl (fun acc c =>
    let step := numStep acc.1 c
    (step.1, acc.2 + step.2)) ((0, 0) : Nat × Nat)
  scan.2 + (if scan.1 = 2 then 1 else 0)

/-- Number of punctuation-class matches. -/
def punctuationCount (s : String) : Nat :=
  (s.data.filter isPunctChar).length

/-- Number of `/\s+/g` matches (maximal whitespace runs): count transitions
into whitespace. -/
def spaceRunCount (s : String) : Nat :=
  (s.data.foldl (fun acc c =>
    if isSpaceChar c then (true, acc.2 + (if acc.1 then 0 else 1)) else (false, acc.2))
    ((false, 0) : Bool × Nat)).2

/-- The extracted text of one part inside `countTokens` (`index.ts`): a bare
string part passes through; an object part yields its string `text`, else
its string `inlineData.data`, else the empty string. -/
def partCountText : PartU → String
  | .str s => s
  | .obj p =>
    match p.text with
    | some t => t
    | none => (p.inlineData.bind (fun d => d.data)).getD ""

/-- The joined text `countTokens` operates on: per-part texts with empty
strings dropped (`filter(Boolean)`), joined with single spaces. -/
def countText (contents : Option ContentListUnion) : String :=
  let cs := normalizeContents (contents.getD (.list []))
  String.intercalate " " (cs.flatMap (fun content =>
    ((content.parts.getD []).map partCountText).filter (fun s => s ≠ "")))

/-- A `CountTokensParameters` request. -/
structure CountTokensRequest where
  contents : Option ContentListUnion := none

/-- A `CountTokensResponse`. -/
structure CountTokensResult where
  totalTokens : Int

/-- The weighted total of `countTokens` on a given text, computed exactly in
tenths: `ceil(1.2w + 1c + 0.8n + 0.5p + ceil(spaceRuns/5))`. -/
def totalTokensOfText (text : String) : Int :=
  let englishWords : Int := englishWordCount text
  let chineseChars : Int := chineseCharCount text
  let numbers : Int := numberCount text
  let punctuations : Int := punctuationCount text
  let spaces : Int := (spaceRunCount text + 4) / 5
  (12 * englishWords + 10 * chineseChars + 8 * numbers + 5 * punctuations +
    10 * spaces + 9) / 10

/-- Embeds `countTokens` from `index.ts`. -/
def countTokens (request : CountTokensRequest) : CountTokensResult :=
  { totalTokens := totalTokensOfText (countText request.contents) }

/-! ## Helper lemmas: the flush ordering machinery -/

/-- Strict ascending-index comparison on accumulator entries. -/
def entryLt (a b : Nat × PendingToolCall) : Prop := a.1 < b.1

instance : IsTrans (Nat × PendingToolCall) entryLt :=
  ⟨fun _ _ _ hab hbc => Nat.lt_trans hab hbc⟩

instance : IsAntisymm (Nat × PendingToolCall) entryLt :=
  ⟨fun _ _ hab hba => absurd (Nat.lt_trans hab hba) (Nat.lt_irrefl _)⟩

/-- The flush's sort really sorts by ascending call index. -/
theorem sortEntries_sorted (m : ToolCallMap) : List.Sorted entryLe (sortEntries m) :=
  List.sorted_insertionSort entryLe m

/-- The flush's sort is a permutation of the accumulator entries. -/
theorem sortEntries_perm (m : ToolCallMap) : (sortEntries m).Perm m :=
  List.perm_insertionSort entryLe m

/-- A weakly sorted entry list with pairwise-distinct keys is strictly sorted. -/
theorem sorted_lt_of_sorted_le {l : ToolCallMap}
    (hs : List.Sorted entryLe l) (hn : (l.map Prod.fst).Nodup) :
    List.Sorted entryLt l := by
  have hne : List.Pairwise (fun a b : Nat × PendingToolCall => a.1 ≠ b.1) l :=
    (List.pairwise_map).mp hn
  exact (hs.and hne).imp (fun h => Nat.lt_of_le_of_ne h.1 h.2)

/-- Two permuted accumulators with distinct keys sort identically. -/
theorem sortEntries_eq_of_perm {m₁ m₂ : ToolCallMap}
    (hp : m₁.Perm m₂) (hn : (m₂.map Prod.fst).Nodup) :
    sortEntries m₁ = sortEntries m₂ := by
  have hperm : (sortEntries m₁).Perm (sortEntries m₂) :=
    ((sortEntries_perm m₁).trans hp).trans (sortEntries_perm m₂).symm
  have hn₂ : ((sortEntries m₂).map Prod.fst).Nodup :=
    (((sortEntries_perm m₂).map Prod.fst).nodup_iff).mpr hn
  have hn₁ : ((sortEntries m₁).map Prod.fst).Nodup :=
    ((hperm.map Prod.fst).nodup_iff).mpr hn₂
  exact List.eq_of_perm_of_sorted hperm
    (sorted_lt_of_sorted_le (sortEntries_sorted m₁) hn₁)
    (sorted_lt_of_sorted_le (sortEntries_sorted m₂) hn₂)

/-- The flush result only depends on the accumulator's entry set (with
distinct keys), not on the arrival order of its entries. -/
theorem flushToolCallMap_eq_of_perm (parse : String → Option Json)
    {m₁ m₂ : ToolCallMap} (hp : m₁.Perm m₂) (hn : (m₂.map Prod.fst).Nodup) :
    flushToolCallMap parse m₁ = flushToolCallMap parse m₂ := by
  unfold flushToolCallMap
  rw [sortEntries_eq_of_perm hp hn]

/-! ## Helper lemmas: fragment accumulation (for C2) -/

/-- Concatenation of a fragment list (the full argument string). -/
def strConcat : List String → String
  | [] => ""
  | s :: rest => s ++ strConcat rest

/-- A chunk carrying exactly one tool-call fragment list. -/
def toolCallChunk (calls : List StreamToolCall) : Chunk :=
  { choices := [{ delta := some { tool_calls := some calls } }] }

/-- A chunk delivering one argument fragment for call index `i`. -/
def argFragmentChunk (i : Nat) (f : String) : Chunk :=
  toolCallChunk [{ index := i, function := some { arguments := some f } }]

/-- The opening chunk of a streamed call: id, type and name at index `i`. -/
def openCallChunk (i : Nat) (id name : String) : Chunk :=
  toolCallChunk [{ index := i, id := some id, type := some "function",
                   function := some { name := some name, arguments := some "" } }]

/-- The terminating chunk: a bare delta with `finish_reason = 'tool_calls'`. -/
def finishChunk : Chunk :=
  { choices := [{ delta := some {}, finish_reason := some "tool_calls" }] }

/-- Stepping one argument fragment appends it to the pending buffer of the
single-entry accumulator and emits nothing. -/
theorem step_argFragmentChunk (parse : String → Option Json) (i : Nat)
    (p : PendingToolCall) (f : String) :
    processStreamChunk parse (argFragmentChunk i f) [(i, p)] =
      (none, [(i, { p with arguments := p.arguments ++ f })]) := by
  by_cases hf : f = ""
  · subst hf
    simp [processStreamChunk, argFragmentChunk, toolCallChunk, extractTextDelta,
      accumulateToolCalls, applyToolCallDelta, skipCall, mapGet, mapSet]
  · simp [processStreamChunk, argFragmentChunk, toolCallChunk, extractTextDelta,
      accumulateToolCalls, applyToolCallDelta, skipCall, mapGet, mapSet, hf]

/-- Running a list of argument-fragment chunks appends their concatenation
to the pending buffer and emits nothing. -/
theorem runChunks_argFragments (parse : String → Option Json) (i : Nat) :
    ∀ (frags : List String) (p : PendingToolCall),
    runChunks parse (frags.map (argFragmentChunk i)) [(i, p)] =
      ([], [(i, { p with arguments := p.arguments ++ strConcat frags })]) := by
  intro frags
  induction frags with
  | nil => intro p; simp [runChunks, strConcat]
  | cons f rest ih =>
      intro p
      simp only [List.map_cons, runChunks, step_argFragmentChunk, ih, strConcat,
        Option.toList, List.nil_append]
      rw [String.append_assoc]

/-! ## More scenario helper lemmas -/

/-- `runChunks` distributes over list append. -/
theorem runChunks_append (parse : String → Option Json) :
    ∀ (l₁ l₂ : List Chunk) (m : ToolCallMap),
    runChunks parse (l₁ ++ l₂) m =
      ((runChunks parse l₁ m).1 ++ (runChunks parse l₂ (runChunks parse l₁ m).2).1,
       (runChunks parse l₂ (runChunks parse l₁ m).2).2) := by
  intro l₁
  induction l₁ with
  | nil => intro l₂ m; simp [runChunks]
  | cons c rest ih =>
      intro l₂ m
      simp only [List.cons_append, runChunks, List.append_eq, ih, List.append_assoc]

/-- The opening chunk creates the pending entry (truthy id and name set,
empty buffer) and emits nothing. -/
theorem step_openCallChunk (parse : String → Option Json) (i : Nat)
    (id name : String) (hid : id ≠ "") (hname : name ≠ "") :
    processStreamChunk parse (openCallChunk i id name) [] =
      (none, [(i, { id := some id, name := name, arguments := "" })]) := by
  simp [processStreamChunk, openCallChunk, toolCallChunk, extractTextDelta,
    accumulateToolCalls, applyToolCallDelta, skipCall, mapGet, mapSet, hid, hname]

/-- The finish chunk flushes a non-empty accumulator. -/
theorem step_finishChunk (parse : String → Option Json) (m : ToolCallMap)
    (hm : m ≠ []) :
    processStreamChunk parse finishChunk m =
      (some (flushToolCallMap parse m).1, []) := by
  simp [processStreamChunk, finishChunk, extractTextDelta, accumulateToolCalls,
    hm, flushToolCallMap]

/-- Flushing a single named entry emits exactly that call with fail-soft
parsed arguments. -/
theorem flush_singleton (parse : String → Option Json) (i : Nat)
    (p : PendingToolCall) (hname : p.name ≠ "") :
    flushToolCallMap parse [(i, p)] =
      ({ candidates := some { role := some "model",
                              parts := [RPart.functionCall (buildFunctionCall parse p)] },
         functionCalls := some [buildFunctionCall parse p] }, []) := by
  simp [flushToolCallMap, sortEntries, List.insertionSort, List.orderedInsert,
    namedEntry, hname, attachFunctionCalls]

/-- A full streamed single-call scenario: open the call at index 0, deliver
the argument string as fragments, then flush; the only emitted response
carries the one call whose arguments are the fail-soft parse of the
fragment concatenation. -/
theorem runChunks_singleCall (parse : String → Option Json) (id name : String)
    (frags : List String) (hid : id ≠ "") (hname : name ≠ "") :
    runChunks parse
        (openCallChunk 0 id name :: (frags.map (argFragmentChunk 0) ++ [finishChunk])) [] =
      ([{ candidates := some { role := some "model",
                               parts := [RPart.functionCall
                                 { id := some id, name := name,
                                   args := safeJsonParse parse (strConcat frags) }] },
          functionCalls := some [{ id := some id, name := name,
                                   args := safeJsonParse parse (strConcat frags) }] }], []) := by
  have h1 := step_openCallChunk parse 0 id name hid hname
  have h2 := runChunks_argFragments parse 0 frags
    { id := some id, name := name, arguments := "" }
  have h3 := step_finishChunk parse
    [(0, { id := some id, name := name, arguments := "" ++ strConcat frags })]
    (by simp)
  have h4 := flush_singleton parse 0
    { id := some id, name := name, arguments := "" ++ strConcat frags } hname
  simp only [runChunks, h1, runChunks_append, h2, String.empty_append] at *
  simp [runChunks, h3, h4, buildFunctionCall, String.empty_append]

/-! ## The claims -/

/-- Claim C1: for every raw tool-call argument string that is not valid JSON
(`parse raw = none` models the `JSON.parse` throw), both the non-streamed
path (`toGeminiResponse`) and the streamed flush path substitute the empty
mapping `{}` as `args`, no error propagates, and the surrounding conversion
completes normally (both conversions return a total result). -/
theorem claim_C1_fail_soft_args (parse : String → Option Json) (raw : String)
    (id pid : Option String) (name : String)
    (hraw : parse raw = none) (hname : name ≠ "") :
    safeJsonParse parse raw = Json.obj [] ∧
    toGeminiResponse parse
        { choices := [{ message := { tool_calls := some [.function id name raw] } }] } =
      some { candidates := some { role := none,
                                  parts := [RPart.functionCall { id := id, name := name, args := Json.obj [] }] },
             usageMetadata := some { promptTokenCount := 0, candidatesTokenCount := 0,
                                     totalTokenCount := 0 } } ∧
    (flushToolCallMap parse [(0, { id := pid, name := name, arguments := raw })]).1 =
      { candidates := some { role := some "model",
                             parts := [RPart.functionCall { id := pid, name := name, args := Json.obj [] }] },
        functionCalls := some [{ id := pid, name := name, args := Json.obj [] }] } := by
  refine ⟨by simp [safeJsonParse, hraw], ?_, ?_⟩
  · simp [toGeminiResponse, truthy, completionFunctionCalls, safeJsonParse, hraw]
  · have h := flush_singleton parse 0 { id := pid, name := name, arguments := raw } hname
    rw [h]
    simp [buildFunctionCall, safeJsonParse, hraw]

/-- Witness for C1 at a concrete non-JSON argument string. -/
theorem claim_C1_fail_soft_args_witness :
    (fun _ : String => (none : Option Json)) "not json" = none ∧
    ("list_directory" : String) ≠ "" ∧
    (safeJsonParse (fun _ => none) "not json" = Json.obj [] ∧
     toGeminiResponse (fun _ => none)
        { choices := [{ message := { tool_calls := some [.function (some "c1") "list_directory" "not json"] } }] } =
      some { candidates := some { role := none,
                                  parts := [RPart.functionCall { id := some "c1", name := "list_directory", args := Json.obj [] }] },
             usageMetadata := some { promptTokenCount := 0, candidatesTokenCount := 0,
                                     totalTokenCount := 0 } } ∧
     (flushToolCallMap (fun _ => none) [(0, { id := some "c2", name := "list_directory", arguments := "not json" })]).1 =
      { candidates := some { role := some "model",
                             parts := [RPart.functionCall { id := some "c2", name := "list_directory", args := Json.obj [] }] },
        functionCalls := some [{ id := some "c2", name := "list_directory", args := Json.obj [] }] }) :=
  ⟨rfl, by decide,
    claim_C1_fail_soft_args (fun _ => none) "not json" (some "c1") (some "c2")
      "list_directory" rfl (by decide)⟩

/-- Claim C2: the flushed call's arguments are the JSON parse of the full
concatenation of the argument fragments, independent of the fragmentation:
any two fragment lists with the same concatenation (e.g. one-character
pieces vs. the whole string at once) produce identical streamed output. -/
theorem claim_C2_fragmentation_independent (parse : String → Option Json)
    (id name : String) (frags frags' : List String)
    (hid : id ≠ "") (hname : name ≠ "") (hsame : strConcat frags = strConcat frags') :
    runChunks parse
        (openCallChunk 0 id name :: (frags.map (argFragmentChunk 0) ++ [finishChunk])) [] =
      ([{ candidates := some { role := some "model",
                               parts := [RPart.functionCall
                                 { id := some id, name := name,
                                   args := safeJsonParse parse (strConcat frags) }] },
          functionCalls := some [{ id := some id, name := name,
                                   args := safeJsonParse parse (strConcat frags) }] }], []) ∧
    runChunks parse
        (openCallChunk 0 id name :: (frags.map (argFragmentChunk 0) ++ [finishChunk])) [] =
      runChunks parse
        (openCallChunk 0 id name :: (frags'.map (argFragmentChunk 0) ++ [finishChunk])) [] := by
  refine ⟨runChunks_singleCall parse id name frags hid hname, ?_⟩
  rw [runChunks_singleCall parse id name frags hid hname,
    runChunks_singleCall parse id name frags' hid hname, hsame]

/-- Witness for C2: one-character fragments vs. the whole string. -/
theorem claim_C2_fragmentation_independent_witness :
    ("c1" : String) ≠ "" ∧ ("f" : String) ≠ "" ∧
    strConcat ["a", "b", "c"] = strConcat ["abc"] ∧
    (runChunks (fun _ => none)
        (openCallChunk 0 "c1" "f" :: (["a", "b", "c"].map (argFragmentChunk 0) ++ [finishChunk])) [] =
      ([{ candidates := some { role := some "model",
                               parts := [RPart.functionCall
                                 { id := some "c1", name := "f",
                                   args := safeJsonParse (fun _ => none) (strConcat ["a", "b", "c"]) }] },
          functionCalls := some [{ id := some "c1", name := "f",
                                   args := safeJsonParse (fun _ => none) (strConcat ["a", "b", "c"]) }] }], []) ∧
     runChunks (fun _ => none)
        (openCallChunk 0 "c1" "f" :: (["a", "b", "c"].map (argFragmentChunk 0) ++ [finishChunk])) [] =
      runChunks (fun _ => none)
        (openCallChunk 0 "c1" "f" :: (["abc"].map (argFragmentChunk 0) ++ [finishChunk])) []) :=
  ⟨by decide, by decide, rfl,
    claim_C2_fragmentation_independent (fun _ => none) "c1" "f" ["a", "b", "c"] ["abc"]
      (by decide) (by decide) rfl⟩

/-- Counterexample to C3 as stated: a chunk whose finish-reason is
`tool_calls` while the accumulator is non-empty, but which carries no delta
at all, produces no Response and leaves the accumulator untouched —
`processStreamChunk` returns before the flush check when `delta` is absent. -/
theorem claim_C3_counterexample :
    processStreamChunk (fun _ => none)
        { choices := [{ delta := none, finish_reason := some "tool_calls" }] }
        [(0, { id := some "c1", name := "f", arguments := "x" })] =
      (none, [(0, { id := some "c1", name := "f", arguments := "x" })]) ∧
    ([(0, { id := some "c1", name := "f", arguments := "x" })] : ToolCallMap) ≠ [] ∧
    ({ choices := [{ delta := none, finish_reason := some "tool_calls" }] } : Chunk).choices.head?.bind
        (fun c => c.finish_reason) = some "tool_calls" :=
  ⟨rfl, by simp, rfl⟩

/-- Claim C3 (amended): for every chunk that carries a delta whose text
branches do not fire and whose finish-reason equals `tool_calls` while the
post-accumulation map is non-empty, the step emits the flush Response —
whose calls are those of the accumulator sorted by ascending call index,
independent of the order in which the entries arrived — and clears the
accumulator unconditionally (even if every entry was dropped for lacking a
name). -/
theorem claim_C3_flush_sorted_and_cleared (parse : String → Option Json)
    (chunk : Chunk) (choice : StreamChoice) (delta : StreamDelta)
    (m m₂ : ToolCallMap)
    (hhead : chunk.choices.head? = some choice)
    (hdelta : choice.delta = some delta)
    (htext : extractTextDelta delta.content = none)
    (hfin : choice.finish_reason = some "tool_calls")
    (hne : accumulateToolCalls m (delta.tool_calls.getD []) ≠ [])
    (hnodup : ((accumulateToolCalls m (delta.tool_calls.getD [])).map Prod.fst).Nodup)
    (hperm : m₂.Perm (accumulateToolCalls m (delta.tool_calls.getD []))) :
    processStreamChunk parse chunk m =
      (some (flushToolCallMap parse (accumulateToolCalls m (delta.tool_calls.getD []))).1, []) ∧
    List.Sorted entryLe (sortEntries (accumulateToolCalls m (delta.tool_calls.getD []))) ∧
    flushToolCallMap parse m₂ =
      flushToolCallMap parse (accumulateToolCalls m (delta.tool_calls.getD [])) := by
  refine ⟨?_, sortEntries_sorted _, flushToolCallMap_eq_of_perm parse hperm hnodup⟩
  simp only [processStreamChunk, hhead, hdelta, htext, hfin, hne, and_true,
    flushToolCallMap]
  simp [hne]

/-- Witness for amended C3: two entries arriving out of index order are
flushed ascending, and a permuted accumulator flushes identically. -/
theorem claim_C3_flush_sorted_and_cleared_witness :
    (({ choices := [{ delta := some {}, finish_reason := some "tool_calls" }] } : Chunk).choices.head? =
      some { delta := some {}, finish_reason := some "tool_calls" }) ∧
    (accumulateToolCalls
        [(2, { id := none, name := "b", arguments := "" }),
         (0, { id := none, name := "a", arguments := "" })]
        ((({} : StreamDelta).tool_calls).getD []) ≠ []) ∧
    (processStreamChunk (fun _ => none)
        { choices := [{ delta := some {}, finish_reason := some "tool_calls" }] }
        [(2, { id := none, name := "b", arguments := "" }),
         (0, { id := none, name := "a", arguments := "" })] =
      (some (flushToolCallMap (fun _ => none)
        (accumulateToolCalls
          [(2, { id := none, name := "b", arguments := "" }),
           (0, { id := none, name := "a", arguments := "" })]
          ((({} : StreamDelta).tool_calls).getD []))).1, []) ∧
     List.Sorted entryLe (sortEntries (accumulateToolCalls
        [(2, { id := none, name := "b", arguments := "" }),
         (0, { id := none, name := "a", arguments := "" })]
        ((({} : StreamDelta).tool_calls).getD []))) ∧
     flushToolCallMap (fun _ => none)
        [(0, { id := none, name := "a", arguments := "" }),
         (2, { id := none, name := "b", arguments := "" })] =
      flushToolCallMap (fun _ => none)
        (accumulateToolCalls
          [(2, { id := none, name := "b", arguments := "" }),
           (0, { id := none, name := "a", arguments := "" })]
          ((({} : StreamDelta).tool_calls).getD []))) :=
  ⟨rfl, by decide,
    claim_C3_flush_sorted_and_cleared (fun _ => none)
      { choices := [{ delta := some {}, finish_reason := some "tool_calls" }] }
      { delta := some {}, finish_reason := some "tool_calls" } {}
      [(2, { id := none, name := "b", arguments := "" }),
       (0, { id := none, name := "a", arguments := "" })]
      [(0, { id := none, name := "a", arguments := "" }),
       (2, { id := none, name := "b", arguments := "" })]
      rfl rfl rfl rfl (by decide) (by decide) (by decide)⟩

/-- A tool-call fragment used by the C4 scenario. -/
def c4Frag : StreamToolCall :=
  { index := 0, id := some "c1", type := some "function",
    function := some { name := some "f", arguments := some "y" } }

/-- A delta carrying both non-empty string text content and a tool-call
fragment. -/
def c4Delta : StreamDelta :=
  { content := some (.str "hi"), tool_calls := some [c4Frag] }

/-- A chunk with that delta and a `tool_calls` finish-reason. -/
def c4Chunk : Chunk :=
  { choices := [{ delta := some c4Delta, finish_reason := some "tool_calls" }] }

/-- A non-empty accumulator (one pending call at index 0). -/
def c4Map : ToolCallMap :=
  [(0, { id := some "c0", name := "g", arguments := "x" })]

/-- Counterexample to C4 as stated: a chunk carrying both non-empty text
content and a tool-call fragment (plus a `tool_calls` finish-reason with a
non-empty accumulator) yields only the text Response; the fragment is not
accumulated and the due flush does not happen, because the text branch
returns early. -/
theorem claim_C4_counterexample :
    processStreamChunk (fun _ => none) c4Chunk c4Map =
      (some { candidates := some { role := some "model", parts := [RPart.text "hi"] } }, c4Map) ∧
    c4Map ≠ [] :=
  ⟨rfl, by simp [c4Map]⟩

/-- Claim C4 (amended): text handling takes priority over tool-call handling
within a chunk.  Whenever a text branch fires, the chunk emits exactly the
standalone text Response and the accumulator is left untouched — the
fragments in the same delta are not accumulated and no flush happens, even
when the finish-reason is `tool_calls`. -/
theorem claim_C4_text_suppresses_tool_calls (parse : String → Option Json)
    (chunk : Chunk) (choice : StreamChoice) (delta : StreamDelta)
    (text : String) (m : ToolCallMap)
    (hhead : chunk.choices.head? = some choice)
    (hdelta : choice.delta = some delta)
    (htext : extractTextDelta delta.content = some text) :
    processStreamChunk parse chunk m =
      (some { candidates := some { role := some "model", parts := [RPart.text text] } }, m) := by
  simp only [processStreamChunk, hhead, hdelta, htext]

/-- Witness for amended C4 at the counterexample chunk. -/
theorem claim_C4_text_suppresses_tool_calls_witness :
    c4Chunk.choices.head? = some { delta := some c4Delta, finish_reason := some "tool_calls" } ∧
    extractTextDelta c4Delta.content = some "hi" ∧
    processStreamChunk (fun _ => none) c4Chunk c4Map =
      (some { candidates := some { role := some "model", parts := [RPart.text "hi"] } }, c4Map) :=
  ⟨rfl, rfl,
    claim_C4_text_suppresses_tool_calls (fun _ => none) c4Chunk
      { delta := some c4Delta, finish_reason := some "tool_calls" } c4Delta
      "hi" c4Map rfl rfl rfl⟩

/-- Filtering the named entries commutes with the flush's sort (for an
accumulator with distinct keys). -/
theorem sortEntries_filter_named (m : ToolCallMap) (hn : (m.map Prod.fst).Nodup) :
    sortEntries (m.filter namedEntry) = (sortEntries m).filter namedEntry := by
  have hperm : (sortEntries (m.filter namedEntry)).Perm ((sortEntries m).filter namedEntry) :=
    (sortEntries_perm (m.filter namedEntry)).trans ((sortEntries_perm m).filter namedEntry).symm
  have hnsort : ((sortEntries m).map Prod.fst).Nodup :=
    (((sortEntries_perm m).map Prod.fst).nodup_iff).mpr hn
  have hnr : (((sortEntries m).filter namedEntry).map Prod.fst).Nodup := by
    have hsub : List.Sublist (((sortEntries m).filter namedEntry).map Prod.fst)
        ((sortEntries m).map Prod.fst) :=
      ((sortEntries m).filter_sublist).map Prod.fst
    exact hnsort.sublist hsub
  have hnl : ((sortEntries (m.filter namedEntry)).map Prod.fst).Nodup :=
    ((hperm.map Prod.fst).nodup_iff).mpr hnr
  exact List.eq_of_perm_of_sorted hperm
    (sorted_lt_of_sorted_le (sortEntries_sorted _) hnl)
    (sorted_lt_of_sorted_le ((sortEntries_sorted m).filter _) hnr)

/-- Claim C5: a flush silently drops every accumulator entry whose name was
never set (even if its id and argument fragments did arrive): the flush of
the full accumulator equals the flush of its named entries only, every
emitted call carries a non-empty name, and the number of emitted parts is
exactly the number of named entries (named siblings are all emitted). -/
theorem claim_C5_unnamed_entries_dropped (parse : String → Option Json)
    (m : ToolCallMap) (hn : (m.map Prod.fst).Nodup) :
    (flushToolCallMap parse m).1 = (flushToolCallMap parse (m.filter namedEntry)).1 ∧
    (∀ fcs, (flushToolCallMap parse m).1.functionCalls = some fcs →
      ∀ fc ∈ fcs, fc.name ≠ "") ∧
    ((flushToolCallMap parse m).1.candidates.getD { role := none, parts := [] }).parts.length =
      (m.filter namedEntry).length := by
  refine ⟨?_, ?_, ?_⟩
  · unfold flushToolCallMap
    rw [sortEntries_filter_named m hn, List.filter_filter]
    simp
  · intro fcs hfcs fc hfc
    unfold flushToolCallMap attachFunctionCalls at hfcs
    by_cases hempty :
        (((sortEntries m).filter namedEntry).map (fun e => buildFunctionCall parse e.2)).isEmpty
    · simp [hempty] at hfcs
    · simp only [hempty, if_false] at hfcs
      obtain rfl : fcs = ((sortEntries m).filter namedEntry).map (fun e => buildFunctionCall parse e.2) := by
        simpa using hfcs.symm
      obtain ⟨e, he, rfl⟩ := List.mem_map.mp hfc
      have hnamed : namedEntry e := List.of_mem_filter he
      simp only [namedEntry, decide_eq_true_eq] at hnamed
      simpa [buildFunctionCall] using hnamed
  · unfold flushToolCallMap attachFunctionCalls
    have hlen : ((sortEntries m).filter namedEntry).length = (m.filter namedEntry).length :=
      ((sortEntries_perm m).filter namedEntry).length_eq
    by_cases hempty :
        (((sortEntries m).filter namedEntry).map (fun e => buildFunctionCall parse e.2)).isEmpty <;>
      simp [hempty, hlen]

/-- Witness for C5: a map mixing an unnamed entry (with id and arguments)
and two named entries. -/
theorem claim_C5_unnamed_entries_dropped_witness :
    (([(0, { id := some "c0", name := "f", arguments := "" }),
       (1, { id := some "c1", name := "", arguments := "frag" }),
       (2, { id := some "c2", name := "g", arguments := "" })] : ToolCallMap).map Prod.fst).Nodup ∧
    ((flushToolCallMap (fun _ => none)
        [(0, { id := some "c0", name := "f", arguments := "" }),
         (1, { id := some "c1", name := "", arguments := "frag" }),
         (2, { id := some "c2", name := "g", arguments := "" })]).1 =
      (flushToolCallMap (fun _ => none)
        (([(0, { id := some "c0", name := "f", arguments := "" }),
           (1, { id := some "c1", name := "", arguments := "frag" }),
           (2, { id := some "c2", name := "g", arguments := "" })] : ToolCallMap).filter namedEntry)).1 ∧
     (∀ fcs, (flushToolCallMap (fun _ => none)
        [(0, { id := some "c0", name := "f", arguments := "" }),
         (1, { id := some "c1", name := "", arguments := "frag" }),
         (2, { id := some "c2", name := "g", arguments := "" })]).1.functionCalls = some fcs →
        ∀ fc ∈ fcs, fc.name ≠ "") ∧
     ((flushToolCallMap (fun _ => none)
        [(0, { id := some "c0", name := "f", arguments := "" }),
         (1, { id := some "c1", name := "", arguments := "frag" }),
         (2, { id := some "c2", name := "g", arguments := "" })]).1.candidates.getD
          { role := none, parts := [] }).parts.length =
      (([(0, { id := some "c0", name := "f", arguments := "" }),
         (1, { id := some "c1", name := "", arguments := "frag" }),
         (2, { id := some "c2", name := "g", arguments := "" })] : ToolCallMap).filter namedEntry).length) :=
  ⟨by decide,
    claim_C5_unnamed_entries_dropped (fun _ => none)
      [(0, { id := some "c0", name := "f", arguments := "" }),
       (1, { id := some "c1", name := "", arguments := "frag" }),
       (2, { id := some "c2", name := "g", arguments := "" })] (by decide)⟩

/-- The spec scenario's text part. -/
def c6TextPart : PartU := PartU.obj { text := some "hello" }

/-- The spec scenario's function-response part. -/
def c6FrPart : PartU :=
  PartU.obj { functionResponse := some { id := some (.str "fr1"), name := some (.str "f"),
                                         response := some { output := some "ok" } } }

/-- The spec scenario's function-call part. -/
def c6FcPart : PartU :=
  PartU.obj { functionCall := some { name := some (.str "g"), args := some (Json.obj []),
                                     id := some (.str "fc1") } }

/-- The spec scenario's turn: text, then function response, then function
call, literally in that order. -/
def c6Turn : Content := { role := some "user", parts := some [c6TextPart, c6FrPart, c6FcPart] }

/-- Claim C6: each turn's flat messages appear in the fixed order
text-message (at most one), then tool messages, then at most one assistant
tool-call message, regardless of the interleaving of the parts inside the
turn; the spec's three-part scenario produces exactly those three messages
in that order. -/
theorem claim_C6_turn_message_order (stringify : Json → String) (content : Content) :
    contentMessages stringify content =
      processTextParts (content.parts.getD [])
          (if content.role = some "model" then some "assistant" else content.role) ++
        processFunctionResponseParts (content.parts.getD []) ++
        processFunctionCallParts stringify (content.parts.getD []) ∧
    (∀ parts role, (processTextParts parts role).length ≤ 1) ∧
    (∀ parts msg, msg ∈ processTextParts parts
        (if content.role = some "model" then some "assistant" else content.role) →
      msg.tool_calls = none ∧ msg.content.isSome) ∧
    (∀ parts msg, msg ∈ processFunctionResponseParts parts →
      msg.role = "tool" ∧ msg.tool_calls = none) ∧
    (∀ parts, (processFunctionCallParts stringify parts).length ≤ 1) ∧
    (∀ parts msg, msg ∈ processFunctionCallParts stringify parts →
      msg.role = "assistant" ∧ msg.content = none ∧ msg.tool_calls.isSome) ∧
    contentMessages stringify c6Turn =
      [{ role := "user", content := some "hello" },
       { role := "tool", content := some "ok", tool_call_id := some "fr1" },
       { role := "assistant", content := none,
         tool_calls := some [{ id := "fc1", name := "g",
                               arguments := stringify (Json.obj []) }] }] := by
  refine ⟨rfl, ?_, ?_, ?_, ?_, ?_, rfl⟩
  · intro parts role
    simp only [processTextParts]
    split
    · simp
    · split
      · simp
      · split
        · simp
        · split <;> simp
  · intro parts msg hmsg
    simp only [processTextParts] at hmsg
    split at hmsg
    · simp at hmsg
    · split at hmsg <;> [skip; split at hmsg] <;>
        first
        | (simp at hmsg; simp [hmsg])
        | (split at hmsg <;> (simp at hmsg; try simp [hmsg]))
  · intro parts msg hmsg
    simp only [processFunctionResponseParts, List.mem_map] at hmsg
    obtain ⟨part, _, rfl⟩ := hmsg
    exact ⟨rfl, rfl⟩
  · intro parts
    simp only [processFunctionCallParts]
    split <;> simp
  · intro parts msg hmsg
    simp only [processFunctionCallParts] at hmsg
    split at hmsg
    · simp at hmsg
    · simp at hmsg
      simp [hmsg]

/-- All function declarations carried by a tool list. -/
def toolDecls (tools : List Tool) : List FunctionDeclaration :=
  tools.flatMap (fun tool =>
    match tool with
    | .functionDeclarations decls => decls.getD []
    | .otherTool => [])

/-- Accumulating `acc ++ g t` over a list is `acc ++` the flat-map. -/
theorem foldl_append_eq_flatMap {α β : Type} (g : α → List β) :
    ∀ (l : List α) (acc : List β), l.foldl (fun a t => a ++ g t) acc = acc ++ l.flatMap g := by
  intro l
  induction l with
  | nil => intro acc; simp
  | cons t rest ih => intro acc; simp [ih]

/-- The accumulation loop of `extractToolFunctions` flattens all
declarations in order. -/
theorem extractToolFunctions_foldl (tools : List Tool) :
    ∀ acc : List OpenAIToolDecl,
    tools.foldl
        (fun acc tool =>
          match tool with
          | Tool.functionDeclarations decls => acc ++ (decls.getD []).map convertDeclaration
          | Tool.otherTool => acc)
        acc =
      acc ++ (toolDecls tools).map convertDeclaration := by
  induction tools with
  | nil => intro acc; simp [toolDecls]
  | cons t rest ih =>
      intro acc
      cases t with
      | functionDeclarations decls =>
          simp only [List.foldl_cons, ih, toolDecls, List.flatMap_cons, List.map_append,
            List.append_assoc]
      | otherTool =>
          simp only [List.foldl_cons, ih, toolDecls, List.flatMap_cons, List.nil_append]

/-- Claim C7: `extractToolFunctions` never returns an empty sequence — it
returns nothing (`undefined`) exactly when no function declaration exists
(no config, no `tools`, or tool entries whose declaration lists are all
empty), and a non-empty sequence of all converted declarations otherwise. -/
theorem claim_C7_no_empty_tool_list (cfg : Option GenerateRequestConfig) :
    extractToolFunctions cfg ≠ some [] ∧
    (extractToolFunctions cfg = none ↔
      (cfg.bind (fun c => c.tools) = none ∨
       ∃ tools, cfg.bind (fun c => c.tools) = some tools ∧ toolDecls tools = [])) ∧
    (∀ l, extractToolFunctions cfg = some l →
      ∃ tools, cfg.bind (fun c => c.tools) = some tools ∧
        l = (toolDecls tools).map convertDeclaration ∧ l ≠ []) := by
  rcases htools : cfg.bind (fun c => c.tools) with _ | tools
  · refine ⟨by simp [extractToolFunctions, htools], ?_, by simp [extractToolFunctions, htools]⟩
    simp [extractToolFunctions, htools]
  · have hres : extractToolFunctions cfg =
        (if ((toolDecls tools).map convertDeclaration).length > 0
         then some ((toolDecls tools).map convertDeclaration) else none) := by
      simp only [extractToolFunctions, htools, extractToolFunctions_foldl, List.nil_append]
    by_cases hd : toolDecls tools = []
    · have hnone : extractToolFunctions cfg = none := by rw [hres]; simp [hd]
      refine ⟨by simp [hnone], ?_, ?_⟩
      · constructor
        · intro _; exact Or.inr ⟨tools, rfl, hd⟩
        · intro _; exact hnone
      · intro l hl
        rw [hnone] at hl
        cases hl
    · have hne : (toolDecls tools).map convertDeclaration ≠ [] := by simp [hd]
      have hlen : ((toolDecls tools).map convertDeclaration).length > 0 :=
        List.length_pos.mpr hne
      have hsome : extractToolFunctions cfg =
          some ((toolDecls tools).map convertDeclaration) := by
        rw [hres]; simp [hlen, hd]
      refine ⟨?_, ?_, ?_⟩
      · rw [hsome]
        simp only [ne_eq, Option.some.injEq]
        simp [hd]
      · rw [hsome]
        constructor
        · intro h; cases h
        · rintro (h | ⟨tools2, ht2, hd2⟩)
          · cases h
          · obtain rfl : tools2 = tools := by injection ht2 with h2; exact h2.symm
            exact absurd hd2 hd
      · intro l hl
        rw [hsome] at hl
        obtain rfl : l = (toolDecls tools).map convertDeclaration := by
          injection hl with h2; exact h2.symm
        exact ⟨tools, rfl, rfl, hne⟩

/-- Claim C8: tool-schema normalization recursively removes every
`minLength`/`minItems` key at any depth, lower-cases every string value of a
`type` key, recurses into arrays and nested objects, keeps all other keys
(in order) with recursively normalized values, and the spec's scenario
schema normalizes as stated. -/
theorem claim_C8_schema_normalization :
    (∀ j, NoMinKeys (convertTypeValuesToLowerCase j)) ∧
    (∀ items, convertTypeValuesToLowerCase (.arr items) =
      .arr (items.map convertTypeValuesToLowerCase)) ∧
    (∀ fields s, ("type", Json.str s) ∈ fields →
      ("type", Json.str (jsToLowerCase s)) ∈
        (convertTypeValuesToLowerCase (.obj fields)).objFields) ∧
    (∀ fields kv, kv ∈ fields → keepField kv → (kv.1 == "type" && kv.2.isStr) = false →
      (kv.1, convertTypeValuesToLowerCase kv.2) ∈
        (convertTypeValuesToLowerCase (.obj fields)).objFields) ∧
    (∀ fields, ((convertTypeValuesToLowerCase (.obj fields)).objFields).map Prod.fst =
      (fields.filter keepField).map Prod.fst) ∧
    convertTypeValuesToLowerCase
        (.obj [("type", .str "OBJECT"), ("minLength", .num 3),
               ("properties", .obj [("x", .obj [("type", .str "STRING")])])]) =
      .obj [("type", .str "object"),
            ("properties", .obj [("x", .obj [("type", .str "string")])])] := by
  refine ⟨noMinKeys_convert, convertTypeValuesToLowerCase_arr, ?_, ?_, ?_, ?_⟩
  · intro fields s hmem
    rw [convertTypeValuesToLowerCase_obj]
    simp only [Json.objFields, List.mem_map]
    refine ⟨("type", Json.str s), ?_, ?_⟩
    · exact List.mem_filter.mpr ⟨hmem, by simp [keepField]⟩
    · simp [Json.isStr, Json.lowerStr]
  · intro fields kv hmem hkeep hcond
    rw [convertTypeValuesToLowerCase_obj]
    simp only [Json.objFields, List.mem_map]
    refine ⟨kv, List.mem_filter.mpr ⟨hmem, hkeep⟩, ?_⟩
    simp [hcond]
  · intro fields
    rw [convertTypeValuesToLowerCase_obj]
    simp only [Json.objFields, List.map_map]
    refine List.map_congr_left ?_
    intro kv _
    simp only [Function.comp_apply]
    split <;> rfl
  · rw [convertTypeValuesToLowerCase_obj]
    simp [keepField, Json.isStr, Json.lowerStr]
    refine ⟨by decide, ?_⟩
    rw [convertTypeValuesToLowerCase_obj]
    simp [keepField, Json.isStr, Json.lowerStr]
    rw [convertTypeValuesToLowerCase_obj]
    simp [keepField, Json.isStr, Json.lowerStr]
    decide

/-- Witness for C8 at a concrete `type` entry and a concrete kept key. -/
theorem claim_C8_schema_normalization_witness :
    ("type", Json.str "ARRAY") ∈ [("type", Json.str "ARRAY"), ("extra", Json.num 1)] ∧
    ("type", Json.str (jsToLowerCase "ARRAY")) ∈
      (convertTypeValuesToLowerCase
        (.obj [("type", Json.str "ARRAY"), ("extra", Json.num 1)])).objFields ∧
    ("extra", Json.num 1) ∈ [("type", Json.str "ARRAY"), ("extra", Json.num 1)] ∧
    ("extra", convertTypeValuesToLowerCase (Json.num 1)) ∈
      (convertTypeValuesToLowerCase
        (.obj [("type", Json.str "ARRAY"), ("extra", Json.num 1)])).objFields :=
  ⟨by simp,
   claim_C8_schema_normalization.2.2.1 [("type", Json.str "ARRAY"), ("extra", Json.num 1)]
     "ARRAY" (by simp),
   by simp,
   claim_C8_schema_normalization.2.2.2.1 [("type", Json.str "ARRAY"), ("extra", Json.num 1)]
     ("extra", Json.num 1) (by simp) (by decide) (by decide)⟩

/-- Counterexample to C9's monotonicity: appending `_` to the text
`"a a a a ,1"` destroys the word-boundary of the trailing number (−0.8)
while adding only one punctuation character (+0.5), dropping the ceiling
from 8 to 7 — extending the input text decreases the count. -/
theorem claim_C9_counterexample :
    countText (some (.str "a a a a ,1")) = "a a a a ,1" ∧
    countText (some (.str "a a a a ,1_")) = "a a a a ,1" ++ "_" ∧
    (countTokens { contents := some (.str "a a a a ,1") }).totalTokens = 8 ∧
    (countTokens { contents := some (.str "a a a a ,1_") }).totalTokens = 7 ∧
    ¬((countTokens { contents := some (.str "a a a a ,1") }).totalTokens ≤
      (countTokens { contents := some (.str "a a a a ,1_") }).totalTokens) := by
  refine ⟨by decide, by decide, by decide, by decide, by decide⟩

/-- Claim C9 (amended): `countTokens` always returns a non-negative integer
`totalTokens`; the count is, however, not monotonic in input length (see the
counterexample — a longer input can yield a strictly smaller count). -/
theorem claim_C9_countTokens_nonneg (request : CountTokensRequest) :
    0 ≤ (countTokens request).totalTokens := by
  show 0 ≤ (12 * (englishWordCount (countText request.contents) : Int) +
    10 * (chineseCharCount (countText request.contents) : Int) +
    8 * (numberCount (countText request.contents) : Int) +
    5 * (punctuationCount (countText request.contents) : Int) +
    10 * (((spaceRunCount (countText request.contents) : Int) + 4) / 5) + 9) / 10
  omega

/-- Every message emitted by `processTextParts` is a plain content message:
no `tool_calls`, a present content string. -/
theorem mem_processTextParts {parts : List PartU} {role : Option String} {msg : FlatMessage}
    (hmsg : msg ∈ processTextParts parts role) :
    msg.tool_calls = none ∧ msg.content.isSome := by
  simp only [processTextParts] at hmsg
  split at hmsg
  · simp at hmsg
  · split at hmsg
    · simp at hmsg; simp [hmsg]
    · split at hmsg
      · simp at hmsg; simp [hmsg]
      · split at hmsg
        · simp at hmsg; simp [hmsg]
        · simp at hmsg

/-- Every message emitted by `processFunctionResponseParts` is a tool
message without `tool_calls`. -/
theorem mem_processFunctionResponseParts {parts : List PartU} {msg : FlatMessage}
    (hmsg : msg ∈ processFunctionResponseParts parts) :
    msg.role = "tool" ∧ msg.tool_calls = none := by
  simp only [processFunctionResponseParts, List.mem_map] at hmsg
  obtain ⟨part, _, rfl⟩ := hmsg
  exact ⟨rfl, rfl⟩

/-- Claim C10: the `isValidFunctionCall` guard rejects every `functionCall`
part whose name is not a string, whose id is not a string, or whose `args`
field is absent; when every part of a turn fails the guard, no assistant
tool-call message is emitted at all (every message of the turn lacks
`tool_calls`). -/
theorem claim_C10_invalid_calls_excluded (stringify : Json → String)
    (p : RawPart) (fc : RawFunctionCall) (parts : List PartU) (role : Option String)
    (hfc : p.functionCall = some fc)
    (hbad : (∀ s, fc.name ≠ some (.str s)) ∨ (∀ s, fc.id ≠ some (.str s)) ∨ fc.args = none)
    (hall : ∀ part ∈ parts, isValidFunctionCall part = false) :
    isValidFunctionCall (.obj p) = false ∧
    processFunctionCallParts stringify parts = [] ∧
    (∀ msg ∈ contentMessages stringify { role := role, parts := some parts },
      msg.tool_calls = none) := by
  have hempty : processFunctionCallParts stringify parts = [] := by
    have hfilter : parts.filter isValidFunctionCall = [] :=
      List.filter_eq_nil_iff.mpr (by simpa using hall)
    simp [processFunctionCallParts, hfilter]
  refine ⟨?_, hempty, ?_⟩
  · simp only [isValidFunctionCall, hfc]
    rcases hbad with hname | hid | hargs
    · rcases hn : fc.name with _ | v
      · simp
      · cases v with
        | str s => exact absurd hn (hname s)
        | notStr => simp
    · rcases hi : fc.id with _ | v
      · simp
      · cases v with
        | str s => exact absurd hi (hid s)
        | notStr => simp
    · simp [hargs]
  · intro msg hmsg
    simp only [contentMessages, Option.getD_some, hempty, List.append_nil,
      List.mem_append] at hmsg
    rcases hmsg with hmsg | hmsg
    · exact (mem_processTextParts hmsg).1
    · exact (mem_processFunctionResponseParts hmsg).2

/-- Witness for C10 at concrete invalid parts (non-string name; absent
args; non-string id). -/
theorem claim_C10_invalid_calls_excluded_witness :
    (({ functionCall := some { name := some .notStr, args := some Json.null,
                               id := some (.str "i1") } } : RawPart).functionCall =
      some { name := some .notStr, args := some Json.null, id := some (.str "i1") }) ∧
    (∀ part ∈ ([PartU.obj { functionCall := some { name := some .notStr,
                                                   args := some Json.null,
                                                   id := some (.str "i1") } },
                PartU.obj { functionCall := some { name := some (.str "f"),
                                                   id := some (.str "i2") } }] : List PartU),
      isValidFunctionCall part = false) ∧
    (isValidFunctionCall (.obj { functionCall := some { name := some .notStr,
                                                        args := some Json.null,
                                                        id := some (.str "i1") } }) = false ∧
     processFunctionCallParts (fun _ => "")
        [PartU.obj { functionCall := some { name := some .notStr, args := some Json.null,
                                            id := some (.str "i1") } },
         PartU.obj { functionCall := some { name := some (.str "f"),
                                            id := some (.str "i2") } }] = [] ∧
     (∀ msg ∈ contentMessages (fun _ => "")
          { role := some "model",
            parts := some [PartU.obj { functionCall := some { name := some .notStr,
                                                              args := some Json.null,
                                                              id := some (.str "i1") } },
                           PartU.obj { functionCall := some { name := some (.str "f"),
                                                              id := some (.str "i2") } }] },
        msg.tool_calls = none)) :=
  ⟨rfl, by decide,
    claim_C10_invalid_calls_excluded (fun _ => "")
      { functionCall := some { name := some .notStr, args := some Json.null,
                               id := some (.str "i1") } }
      { name := some .notStr, args := some Json.null, id := some (.str "i1") }
      [PartU.obj { functionCall := some { name := some .notStr, args := some Json.null,
                                          id := some (.str "i1") } },
       PartU.obj { functionCall := some { name := some (.str "f"),
                                          id := some (.str "i2") } }]
      (some "model") rfl
      (Or.inl (fun s h => by cases h))
      (by decide)⟩

end CustomLLM
